import Mathlib

/-!
# Verification of the meson build-description parser (`mparser.py`)

This file gives a shallow embedding of the tokenizer and grammar engine of
`mparser.py` (a PLY `lex`/`yacc` based parser) together with the AST node
model, and proves or refutes the specification claims about it.

Conventions of the embedding:
* Python exceptions become `Except` values.  `ParserException(text, lineno)`
  becomes the structure `ParserException`.
* The PLY lexer is embedded as a fueled recursive function over the character
  list; the fuel `length + 1` is always sufficient because every step consumes
  at least one character.  The dispatch mirrors PLY's master-regex priority:
  function rules (`t_ATOM`, `t_MULTILINE_STRING`, `t_STRING`, `t_INT`,
  `t_EOL`, `t_EOL_CONTINUE`) before string rules (`t_NEQUALS`, `t_EQUALS`,
  single-character tokens), with `t_ignore = ' \t'` handled first.  All the
  first characters of the rules are disjoint, so a dispatch on the head
  character is faithful.
* The PLY LALR grammar engine is embedded as a fueled recursive-descent /
  precedence-climbing parser that realizes exactly the productions
  `p_codeblock .. p_error` together with the declared `precedence` table
  (`nonassoc EQUALS NEQUALS`, `left OR`, `left AND`, `nonassoc COLON`,
  `left DOT`) and PLY's shift-preference for the unprecedenced rules
  (`statement : expression`, the `codeblock`/`args` list rules).
-/

/-- The single quote character as a string, used to build lexer messages and
test inputs. -/
def squote : String := String.singleton '\''

/-- Embedding of `ParserException(text, lineno)` from `mparser.py`.  Both the
lexer (`t_error`) and the grammar engine (`p_error`) raise this exception;
`lineno` is an `Int` because `p_error` uses the sentinel `-1` at end of
input. -/
structure ParserException where
  text : String
  lineno : Int
deriving DecidableEq, Repr

/-- Token types of the lexer, one constructor per entry of the `tokens` list
plus the reserved words (`reserved.values()`).  Value-bearing tokens carry
their processed value, exactly as the `t_*` rules set `t.value`. -/
inductive TokType where
  | LPAREN
  | RPAREN
  | LBRACKET
  | RBRACKET
  | ATOM (s : String)
  | ASSIGN
  | EQUALS
  | NEQUALS
  | COMMA
  | DOT
  | STRING (s : String)
  | MULTILINE_STRING (s : String)
  | INT (n : Nat)
  | EOL
  | COLON
  | TRUE
  | FALSE
  | IF
  | ENDIF
  | ELSE
  | AND
  | OR
  | NOT
deriving DecidableEq, Repr

/-- A lexer token: type (with value) and the line number it was emitted on,
as PLY's `LexToken` carries `t.value` and `t.lineno`. -/
structure Token where
  ttype : TokType
  line : Nat
deriving DecidableEq, Repr

/-- The text `t.value` of a token as `p_error` prints it with `'%s' % txt`:
the matched text for keywords/punctuation, the processed value for `ATOM`,
`STRING`, `MULTILINE_STRING` (quotes stripped) and `INT` (decimal). -/
def tokValue : TokType → String
  | .LPAREN => "("
  | .RPAREN => ")"
  | .LBRACKET => "["
  | .RBRACKET => "]"
  | .ATOM s => s
  | .ASSIGN => "="
  | .EQUALS => "=="
  | .NEQUALS => "!="
  | .COMMA => ","
  | .DOT => "."
  | .STRING s => s
  | .MULTILINE_STRING s => s
  | .INT n => toString n
  | .EOL => "\n"
  | .COLON => ":"
  | .TRUE => "true"
  | .FALSE => "false"
  | .IF => "if"
  | .ENDIF => "endif"
  | .ELSE => "else"
  | .AND => "and"
  | .OR => "or"
  | .NOT => "not"

/-- The `reserved` keyword table of `mparser.py`: `t_ATOM` looks the matched
identifier up here and falls back to a generic `ATOM`. -/
def reservedLookup (s : String) : TokType :=
  match s with
  | "true" => .TRUE
  | "false" => .FALSE
  | "if" => .IF
  | "endif" => .ENDIF
  | "else" => .ELSE
  | "and" => .AND
  | "or" => .OR
  | "not" => .NOT
  | _ => .ATOM s

/-- `t_error` message: `"Illegal character '%s'." % t.value[0]`. -/
def illegalCharMsg (s : String) : String :=
  "Illegal character " ++ squote ++ s ++ squote ++ "."

/-- Build the `ParserException` raised by `t_error` for character `c` on
line `ln`. -/
def lexError (c : Char) (ln : Nat) : ParserException :=
  ⟨illegalCharMsg (String.singleton c), (ln : Int)⟩

/-- First character of an identifier: the `[a-zA-Z]` of the `t_ATOM` rule. -/
def isIdentStart (c : Char) : Bool := c.isAlpha

/-- Continuation character of an identifier: the `[_0-9a-zA-Z]` of `t_ATOM`. -/
def isIdentChar (c : Char) : Bool := c.isAlphanum || c = '_'

/-- Decimal value of a digit list, as Python's `int(t.value)` in `t_INT`. -/
def digitsToNat (ds : List Char) : Nat :=
  ds.foldl (fun a c => a * 10 + (c.toNat - '0'.toNat)) 0

/-- Scan for the closing `'''` of a multi-line string, non-greedily as
`r"'''(.|\n)*?'''"` does: returns the content before the *first* closing
triple quote and the remainder after it, or `none` when there is no closing
triple quote. -/
def scanTriple : List Char → Option (List Char × List Char)
  | '\'' :: '\'' :: '\'' :: rest => some ([], rest)
  | c :: rest =>
    match scanTriple rest with
    | some (a, b) => some (c :: a, b)
    | none => none
  | [] => none

/-- The result of one step of the master-regex match at the current
position: skip matched text without a token (`t_ignore`,
`t_ignore_COMMENT`, `t_EOL_CONTINUE`), emit a token, or fail
(`t_error`). -/
inductive LexStep where
  | skip (ln : Nat) (rest : List Char)
  | emit (t : Token) (ln : Nat) (rest : List Char)
  | err (e : ParserException)
deriving DecidableEq, Repr

/-- The quote rules, tried at a position holding a single quote whose tail
is `cs`: first `t_MULTILINE_STRING` (non-greedy, strips the triple-quote
delimiters and advances `lexer.lineno` by the newlines of the content),
then `t_STRING` (the value is the verbatim text between the quotes — note
that the regex class excludes only the quote itself, so it matches any
other character including a newline, and `lexer.lineno` is not advanced).
When the multi-line rule finds no closing triple quote, `t_STRING` matches
the first two quotes as an empty string; when no closing quote exists at
all, no rule matches and `t_error` fires on the quote character. -/
def lexQuote (ln : Nat) (cs : List Char) : LexStep :=
  match cs with
  | '\'' :: '\'' :: body =>
    match scanTriple body with
    | some (content, rest) =>
      .emit ⟨.MULTILINE_STRING (String.mk content), ln⟩
        (ln + content.count '\n') rest
    | none => .emit ⟨.STRING "", ln⟩ ln ('\'' :: body)
  | _ =>
    match cs.dropWhile (fun d => d ≠ '\'') with
    | '\'' :: rest =>
      .emit ⟨.STRING (String.mk (cs.takeWhile (fun d => d ≠ '\''))), ln⟩ ln rest
    | _ => .err (lexError '\'' ln)

/-- The single-character punctuation rules `t_LPAREN`, `t_RPAREN`,
`t_LBRACKET`, `t_RBRACKET`, `t_COMMA`, `t_DOT`, `t_COLON`, tried last;
when none matches, `t_error` fires. -/
def lexPunct (ln : Nat) (c : Char) (cs : List Char) : LexStep :=
  if c = '(' then .emit ⟨.LPAREN, ln⟩ ln cs
  else if c = ')' then .emit ⟨.RPAREN, ln⟩ ln cs
  else if c = '[' then .emit ⟨.LBRACKET, ln⟩ ln cs
  else if c = ']' then .emit ⟨.RBRACKET, ln⟩ ln cs
  else if c = ',' then .emit ⟨.COMMA, ln⟩ ln cs
  else if c = '.' then .emit ⟨.DOT, ln⟩ ln cs
  else if c = ':' then .emit ⟨.COLON, ln⟩ ln cs
  else
    -- t_error
    .err (lexError c ln)

/-- One step of the lexer at a non-empty position `c :: cs` with
`lexer.lineno = ln`.  The dispatch mirrors PLY's priority: `t_ignore`
characters first, then the function rules `t_ATOM`, `t_MULTILINE_STRING`,
`t_STRING`, `t_INT`, `t_EOL`, `t_EOL_CONTINUE` in definition order, then
the string rules longest pattern first (`t_ignore_COMMENT`, `t_NEQUALS`,
`t_EQUALS` before `t_ASSIGN`, the single-character tokens); the first
characters of all rules are disjoint, so a dispatch on `c` is faithful.
When nothing matches, `t_error` fires. -/
def lexStep (ln : Nat) (c : Char) (cs : List Char) : LexStep :=
  if c = ' ' || c = '\t' then
    -- t_ignore = ' \t'
    .skip ln cs
  else if isIdentStart c then
    -- t_ATOM: '[a-zA-Z][_0-9a-zA-Z]*', then the reserved-word lookup
    .emit ⟨reservedLookup (String.mk (c :: cs.takeWhile isIdentChar)), ln⟩
      ln (cs.dropWhile isIdentChar)
  else if c.isDigit then
    -- t_INT: '[0-9]+', value converted with int()
    .emit ⟨.INT (digitsToNat (c :: cs.takeWhile Char.isDigit)), ln⟩
      ln (cs.dropWhile Char.isDigit)
  else if c = '\'' then
    lexQuote ln cs
  else if c = '\n' then
    -- t_EOL: matches one newline, increments lineno, emits the token
    .emit ⟨.EOL, ln⟩ (ln + 1) cs
  else if c = '\\' then
    -- t_EOL_CONTINUE: backslash, then spaces/tabs, then a newline;
    -- increments lineno and emits no token
    match cs.dropWhile (fun d => d = ' ' || d = '\t') with
    | '\n' :: rest => .skip (ln + 1) rest
    | _ => .err (lexError '\\' ln)
  else if c = '#' then
    -- t_ignore_COMMENT: discards from the hash up to (not including) the
    -- next newline; fails to match when no newline follows.
    if cs.contains '\n' then .skip ln (cs.dropWhile (fun d => d ≠ '\n'))
    else .err (lexError '#' ln)
  else if c = '=' then
    -- t_EQUALS has priority over t_ASSIGN (longer pattern)
    match cs with
    | '=' :: rest => .emit ⟨.EQUALS, ln⟩ ln rest
    | _ => .emit ⟨.ASSIGN, ln⟩ ln cs
  else if c = '!' then
    -- t_NEQUALS; a lone exclamation mark matches no rule
    match cs with
    | '=' :: rest => .emit ⟨.NEQUALS, ln⟩ ln rest
    | _ => .err (lexError '!' ln)
  else
    lexPunct ln c cs

/-- The fueled lexer loop over `lexStep`.  `ln` is `lexer.lineno` (initial
value 1).  Each step consumes at least one character, so fuel `length + 1`
never runs out; the fuel-exhaustion branch is unreachable and returns a
`t_error`-shaped exception. -/
def lexAux : Nat → Nat → List Char → Except ParserException (List Token)
  | 0, ln, _ => .error ⟨illegalCharMsg "", (ln : Int)⟩
  | _ + 1, _, [] => .ok []
  | fuel + 1, ln, c :: cs =>
    match lexStep ln c cs with
    | .skip ln' rest => lexAux fuel ln' rest
    | .emit t ln' rest => (lexAux fuel ln' rest).map (fun ts => t :: ts)
    | .err e => .error e

/-- Run the lexer on a source string, as `lex.lex()` + feeding the input:
`lexer.lineno` starts at 1. -/
def tokenize (code : String) : Except ParserException (List Token) :=
  lexAux (code.data.length + 1) 1 code.data

/-- Python whitespace stripped by `str.rstrip()`. -/
def isPyWs (c : Char) : Bool :=
  c = ' ' || c = '\t' || c = '\n' || c = '\r' || c = '\x0b' || c = '\x0c'

/-- Embedding of `code.rstrip()`. -/
def rstrip (s : String) : String :=
  String.mk ((s.data.reverse.dropWhile isPyWs).reverse)

/-- The input normalization of `build_ast`: `code = code.rstrip() + '\n'`. -/
def normalizeInput (code : String) : String :=
  rstrip code ++ "\n"

/-!
## AST node model

`mparser.py` imports the node constructors from the module `nodes`, whose
source is not part of this repository; the node model below is therefore
modelled from the specification (§3 data model, §4.3 node operations),
keeping the constructor names and the constructor arguments that the parser
actions in `mparser.py` pass.
-/

/-- Modelled from the spec: the expression entities of §3
(`AtomExpression`, `IntExpression`, `BoolExpression`, `StringExpression`),
each carrying its value and the line of its token, as constructed by
`p_expression_atom` / `p_expression_int` / `p_expression_bool` /
`p_expression_string` / `p_expression_multiline_string`. -/
inductive Expression where
  | AtomExpression (value : String) (line : Nat)
  | IntExpression (value : Nat) (line : Nat)
  | BoolExpression (value : Bool) (line : Nat)
  | StringExpression (value : String) (line : Nat)
deriving DecidableEq, Repr

/-- The `lineno()` accessor of an expression node. -/
def Expression.lineno : Expression → Nat
  | .AtomExpression _ l => l
  | .IntExpression _ l => l
  | .BoolExpression _ l => l
  | .StringExpression _ l => l

mutual
/-- Modelled from the spec: the statement entities of §3, with the fields
(and the explicit `lineno` constructor arguments) that the `p_statement_*`
actions of `mparser.py` pass.  `AndStatement`/`OrStatement` are built by
`p_statement_and`/`p_statement_or` without a line argument; per the spec
(§3, every node carries the line of its leading token) their constructors
record the left operand's line. -/
inductive Statement where
  | ExpressionStatement (e : Expression)
  | Assignment (target : Expression) (value : Statement) (line : Nat)
  | Comparison (left : Statement) (op : String) (right : Statement) (line : Nat)
  | AndStatement (left : Statement) (right : Statement) (line : Nat)
  | OrStatement (left : Statement) (right : Statement) (line : Nat)
  | FunctionCall (name : Expression) (args : Arguments) (line : Nat)
  | MethodCall (object : Statement) (name : Expression) (args : Arguments) (line : Nat)
  | IfStatement (condition : Statement) (thenBlock : CodeBlock)
      (elseBlock : Option CodeBlock) (line : Nat)
  | ArrayStatement (args : Arguments) (line : Nat)

/-- Modelled from the spec: the `Arguments` entity of §3 — an ordered
positional sequence plus a keyword mapping.  The keyword names are stored as
the expressions the parser passes to `set_kwarg`. -/
inductive Arguments where
  | mk (positional : List Statement) (kwargs : List (Expression × Statement)) (line : Nat)

/-- Modelled from the spec: the `CodeBlock` entity of §3 — an ordered
sequence of statements, created by `p_codeblock_last` with a line number. -/
inductive CodeBlock where
  | mk (statements : List Statement) (line : Nat)
end

/-- Positional arguments of an `Arguments` node. -/
def Arguments.positional : Arguments → List Statement
  | .mk p _ _ => p

/-- Keyword arguments of an `Arguments` node. -/
def Arguments.kwargs : Arguments → List (Expression × Statement)
  | .mk _ k _ => k

/-- Line attribute of an `Arguments` node. -/
def Arguments.line : Arguments → Nat
  | .mk _ _ l => l

/-- Statement sequence of a `CodeBlock`. -/
def CodeBlock.statements : CodeBlock → List Statement
  | .mk s _ => s

/-- Line attribute of a `CodeBlock`. -/
def CodeBlock.line : CodeBlock → Nat
  | .mk _ l => l

/-- The `lineno()` accessor of a statement node; an expression statement
reports its expression's line. -/
def Statement.lineno : Statement → Nat
  | .ExpressionStatement e => e.lineno
  | .Assignment _ _ l => l
  | .Comparison _ _ _ l => l
  | .AndStatement _ _ l => l
  | .OrStatement _ _ l => l
  | .FunctionCall _ _ l => l
  | .MethodCall _ _ _ l => l
  | .IfStatement _ _ _ l => l
  | .ArrayStatement _ l => l

/-- Modelled from the spec: `nodes.statement_from_expression` — §4.2
(`statement := expression`) wraps an expression as a statement. -/
def statement_from_expression (e : Expression) : Statement :=
  .ExpressionStatement e

/-- Modelled from the spec: `nodes.CodeBlock.prepend` — §4.3 "prepend
element to sequence"; the line attribute is not touched. -/
def CodeBlock.prepend (cb : CodeBlock) (s : Statement) : CodeBlock :=
  .mk (s :: cb.statements) cb.line

/-- Modelled from the spec: `nodes.Arguments.prepend` — §4.3 "prepend
element to sequence" for the positional list; the line attribute is not
touched. -/
def Arguments.prepend (a : Arguments) (s : Statement) : Arguments :=
  .mk (s :: a.positional) a.kwargs a.line

/-- Insert a keyword binding into the keyword list: last write for a
duplicate key wins. -/
def insertKwarg (kws : List (Expression × Statement)) (name : Expression)
    (value : Statement) : List (Expression × Statement) :=
  match kws with
  | [] => [(name, value)]
  | (n, v) :: rest =>
    if n = name then (n, value) :: rest
    else (n, v) :: insertKwarg rest name value

/-- Modelled from the spec: `nodes.Arguments.set_kwarg` — §4.3 "record a
keyword binding (insert into the keyword mapping; last write for a duplicate
key wins)"; the line attribute is not touched. -/
def Arguments.set_kwarg (a : Arguments) (name : Expression) (value : Statement) :
    Arguments :=
  .mk a.positional (insertKwarg a.kwargs name value) a.line

/-- Modelled from the spec: `nodes.AndStatement` as called by
`p_statement_and` with only the two operands; the node records the left
operand's line (§3: line of the leading token). -/
def mkAndStatement (left right : Statement) : Statement :=
  .AndStatement left right left.lineno

/-- Modelled from the spec: `nodes.OrStatement` as called by
`p_statement_or` with only the two operands; the node records the left
operand's line (§3: line of the leading token). -/
def mkOrStatement (left right : Statement) : Statement :=
  .OrStatement left right left.lineno

/-!
## Grammar engine

The productions `p_codeblock` .. `p_args_none` with the `precedence` table,
embedded as a fueled mutually recursive parser over the token list.  The
binary statement operators are handled by precedence climbing with the
declared levels (numbered as in the `precedence` tuple):
`COMMA` 1, `ASSIGN` 2, `EQUALS`/`NEQUALS` 3 (nonassoc), `OR` 4, `AND` 5,
`COLON` 6 (nonassoc), `DOT` 7.  PLY's default shift preference for the
rules without precedence (`statement : expression` in front of `ASSIGN`,
`LPAREN` or — inside `args` — `COLON`; the list rules of `codeblock` and
`args` in front of `EOL`) is realized by the corresponding lookahead
decisions.  Every error goes through `p_error`.
-/

/-- `p_error` for an offending token `t`:
`ParserException('Parser errored out at: %s.' % t.value, t.lineno)`. -/
def parseError (t : Token) : ParserException :=
  ⟨"Parser errored out at: " ++ tokValue t.ttype ++ ".", (t.line : Int)⟩

/-- `p_error` at end of input (`t is None`):
`ParserException('Parser errored out at: NONE.', -1)`. -/
def parseErrorNone : ParserException :=
  ⟨"Parser errored out at: NONE.", -1⟩

/-- The expression node for an expression-level token
(`p_expression_atom` / `p_expression_int` / `p_expression_bool` /
`p_expression_string` / `p_expression_multiline_string`), or `none` when the
token is not an expression token. -/
def expressionOfToken (t : Token) : Option Expression :=
  match t.ttype with
  | .ATOM s => some (.AtomExpression s t.line)
  | .INT n => some (.IntExpression n t.line)
  | .TRUE => some (.BoolExpression true t.line)
  | .FALSE => some (.BoolExpression false t.line)
  | .STRING s => some (.StringExpression s t.line)
  | .MULTILINE_STRING s => some (.StringExpression s t.line)
  | _ => none

/-- Whether a token can begin a `statement` (the FIRST set of the
`statement` nonterminal): an expression token, `(`, `[` or `if`. -/
def isStatementStart (t : Token) : Bool :=
  (expressionOfToken t).isSome ||
    t.ttype = .LPAREN || t.ttype = .LBRACKET || t.ttype = .IF

/-- Consume one token of the expected type, or fail through `p_error` with
the offending token (or the end-of-input `p_error(None)`). -/
def expectTok (tt : TokType) (toks : List Token) :
    Except ParserException (List Token) :=
  match toks with
  | [] => .error parseErrorNone
  | t :: rest => if t.ttype = tt then .ok rest else .error (parseError t)

mutual

/-- Parse a `statement` whose binary operators all have precedence at least
`minPrec`: first a primary statement, then the operator loop. -/
def parseStatement (fuel : Nat) (minPrec : Nat) (toks : List Token) :
    Except ParserException (Statement × List Token) :=
  match fuel with
  | 0 => .error parseErrorNone
  | fuel + 1 => do
    let (left, rest) ← parsePrimary fuel toks
    parseBinOps fuel minPrec left rest

/-- Parse a primary statement: an if-statement (`p_statement_if`), a
parenthesized statement (`p_statement_parentheses`), an array literal
(`p_statement_array` / `p_statement_array2`), or an expression token
optionally followed by `= statement` (`p_statement_assign`, shifted by
default because `statement : expression` has no precedence) or by
`( args )` (`p_statement_func_call`); a bare expression token reduces via
`p_statement_expression`. -/
def parsePrimary (fuel : Nat) (toks : List Token) :
    Except ParserException (Statement × List Token) :=
  match fuel with
  | 0 => .error parseErrorNone
  | fuel + 1 =>
    match toks with
    | [] => .error parseErrorNone
    | t :: rest =>
      match expressionOfToken t with
      | some e =>
        match rest with
        | u :: rs =>
          if u.ttype = .ASSIGN then do
            -- p_statement_assign: 'statement : expression ASSIGN statement',
            -- node line = t[1].lineno(); the right side admits operators
            -- above the ASSIGN level 2.
            let (v, r) ← parseStatement fuel 3 rs
            .ok (.Assignment e v e.lineno, r)
          else if u.ttype = .LPAREN then do
            -- p_statement_func_call:
            -- 'statement : expression LPAREN args RPAREN'
            let (args, r1) ← parseArgs fuel rs
            let r2 ← expectTok .RPAREN r1
            .ok (.FunctionCall e args e.lineno, r2)
          else
            .ok (statement_from_expression e, rest)
        | [] => .ok (statement_from_expression e, [])
      | none =>
        if t.ttype = .IF then do
          -- p_statement_if:
          -- 'statement : IF statement EOL codeblock elseblock ENDIF'
          let (cond, r1) ← parseStatement fuel 0 rest
          let r2 ← expectTok .EOL r1
          let (cb, r3) ← parseCodeblock fuel r2
          let (eb, r4) ← parseElseblock fuel r3
          let r5 ← expectTok .ENDIF r4
          .ok (.IfStatement cond cb eb t.line, r5)
        else if t.ttype = .LPAREN then do
          -- p_statement_parentheses: 'statement : LPAREN statement RPAREN'
          let (s, r1) ← parseStatement fuel 0 rest
          let r2 ← expectTok .RPAREN r1
          .ok (s, r2)
        else if t.ttype = .LBRACKET then do
          -- p_statement_array / p_statement_array2:
          -- 'statement : LBRACKET (EOL)? args (EOL)? RBRACKET',
          -- node line = t.lineno(1), the line of the bracket.
          let rest1 :=
            match rest with
            | u :: rs => if u.ttype = .EOL then rs else rest
            | [] => rest
          let (args, r1) ← parseArgs fuel rest1
          let r2 :=
            match r1 with
            | u :: rs => if u.ttype = .EOL then rs else r1
            | [] => r1
          let r3 ← expectTok .RBRACKET r2
          .ok (.ArrayStatement args t.line, r3)
        else
          .error (parseError t)

/-- The binary-operator loop over a parsed left operand, realizing the
`precedence` table.  `EQUALS`/`NEQUALS` (level 3) are nonassoc: after a
comparison another comparison token is a parse error (`p_statement_comparison`
with the error action of the nonassoc conflict).  `OR` (4) and `AND` (5) are
left associative (`p_statement_or`, `p_statement_and`).  `DOT` (7) heads a
method call (`p_statement_method_call`). -/
def parseBinOps (fuel : Nat) (minPrec : Nat) (left : Statement)
    (toks : List Token) : Except ParserException (Statement × List Token) :=
  match fuel with
  | 0 => .error parseErrorNone
  | fuel + 1 =>
    match toks with
    | [] => .ok (left, [])
    | t :: rest =>
      if (t.ttype = .EQUALS || t.ttype = .NEQUALS) && minPrec ≤ 3 then do
        -- p_statement_comparison, node line = t[1].lineno()
        let (right, r1) ← parseStatement fuel 4 rest
        let node := Statement.Comparison left (tokValue t.ttype) right left.lineno
        match r1 with
        | u :: _ =>
          if u.ttype = .EQUALS || u.ttype = .NEQUALS then
            -- nonassoc EQUALS/NEQUALS: chaining is an error action
            .error (parseError u)
          else
            parseBinOps fuel minPrec node r1
        | [] => parseBinOps fuel minPrec node r1
      else if t.ttype = .OR && minPrec ≤ 4 then do
        let (right, r1) ← parseStatement fuel 5 rest
        parseBinOps fuel minPrec (mkOrStatement left right) r1
      else if t.ttype = .AND && minPrec ≤ 5 then do
        let (right, r1) ← parseStatement fuel 6 rest
        parseBinOps fuel minPrec (mkAndStatement left right) r1
      else if t.ttype = .DOT && minPrec ≤ 7 then do
        -- p_statement_method_call:
        -- 'statement : statement DOT expression LPAREN args RPAREN',
        -- node line = t[1].lineno()
        match rest with
        | [] => .error parseErrorNone
        | u :: rs =>
          match expressionOfToken u with
          | some e => do
            let r1 ← expectTok .LPAREN rs
            let (args, r2) ← parseArgs fuel r1
            let r3 ← expectTok .RPAREN r2
            parseBinOps fuel minPrec (.MethodCall left e args left.lineno) r3
          | none => .error (parseError u)
      else
        .ok (left, toks)

/-- Parse an `args` list (`p_args_multiple`, `p_kwargs_multiple`,
`p_args_single_pos`, `p_args_single_kw`, `p_args_none`).  A keyword argument
is recognized when an expression token is immediately followed by `COLON`
(PLY shifts the `COLON` of `args : expression COLON statement` in preference
to reducing `statement : expression`); its value admits only operators above
the `COLON` level 6.  After an element, `COMMA [EOL]` or `EOL COMMA`
continues the list (the EOL-tolerating rule variants; the `EOL` is shifted
in preference to reducing the single-element rules, which have no
precedence); anything else ends the list.  When no element can start,
`p_args_none` builds `Arguments(t.lineno(0))`, whose line is 0. -/
def parseArgs (fuel : Nat) (toks : List Token) :
    Except ParserException (Arguments × List Token) :=
  match fuel with
  | 0 => .error parseErrorNone
  | fuel + 1 =>
    match toks with
    | t1 :: t2 :: rest =>
      match expressionOfToken t1 with
      | some e =>
        if t2.ttype = .COLON then do
          -- kwarg: 'args : expression COLON statement ...'
          let (v, r1) ← parseStatement fuel 7 rest
          match r1 with
          | u :: r2 =>
            if u.ttype = .COMMA then do
              -- p_kwargs_multiple with 'COMMA args' or 'COMMA EOL args'
              let r2' :=
                match r2 with
                | w :: ws => if w.ttype = .EOL then ws else r2
                | [] => r2
              let (args, r3) ← parseArgs fuel r2'
              .ok (args.set_kwarg e v, r3)
            else if u.ttype = .EOL then
              match r2 with
              | w :: r4 =>
                if w.ttype = .COMMA then do
                  -- p_kwargs_multiple with 'EOL COMMA args'
                  let (args, r5) ← parseArgs fuel r4
                  .ok (args.set_kwarg e v, r5)
                else .error (parseError w)
              | [] => .error parseErrorNone
            else
              -- p_args_single_kw: Arguments(t[1].lineno()) + set_kwarg
              .ok ((Arguments.mk [] [] e.lineno).set_kwarg e v, r1)
          | [] => .ok ((Arguments.mk [] [] e.lineno).set_kwarg e v, r1)
        else
          parseArgsPositional fuel toks
      | none => parseArgsPositional fuel toks
    | _ => parseArgsPositional fuel toks

/-- The positional-element alternatives of `args`: a statement followed by
`COMMA [EOL]` or `EOL COMMA` and more arguments (`p_args_multiple`), a
single statement (`p_args_single_pos`, `Arguments(t[1].lineno())`), or no
element at all (`p_args_none`, line 0). -/
def parseArgsPositional (fuel : Nat) (toks : List Token) :
    Except ParserException (Arguments × List Token) :=
  match fuel with
  | 0 => .error parseErrorNone
  | fuel + 1 =>
    match toks with
    | t :: _ =>
      if isStatementStart t then do
        let (s, r1) ← parseStatement fuel 0 toks
        match r1 with
        | u :: r2 =>
          if u.ttype = .COMMA then do
            let r2' :=
              match r2 with
              | w :: ws => if w.ttype = .EOL then ws else r2
              | [] => r2
            let (args, r3) ← parseArgs fuel r2'
            .ok (args.prepend s, r3)
          else if u.ttype = .EOL then
            match r2 with
            | w :: r4 =>
              if w.ttype = .COMMA then do
                let (args, r5) ← parseArgs fuel r4
                .ok (args.prepend s, r5)
              else .error (parseError w)
            | [] => .error parseErrorNone
          else
            .ok ((Arguments.mk [] [] s.lineno).prepend s, r1)
        | [] => .ok ((Arguments.mk [] [] s.lineno).prepend s, r1)
      else
        .ok (Arguments.mk [] [] 0, toks)
    | [] => .ok (Arguments.mk [] [] 0, toks)

/-- Parse a `codeblock`: blank lines are skipped (`p_codeblock_emptyline`);
a statement followed by `EOL` either ends the block (`p_codeblock_last`,
which creates `CodeBlock(t[1].lineno())` from the *last* statement) or, when
another statement or a blank line follows, continues it (`p_codeblock`,
which prepends into the block built from the tail).  A token that cannot
start a statement where one is required is a parse error. -/
def parseCodeblock (fuel : Nat) (toks : List Token) :
    Except ParserException (CodeBlock × List Token) :=
  match fuel with
  | 0 => .error parseErrorNone
  | fuel + 1 =>
    match toks with
    | [] => .error parseErrorNone
    | t :: rest =>
      if t.ttype = .EOL then
        parseCodeblock fuel rest
      else if isStatementStart t then do
        let (s, r1) ← parseStatement fuel 0 toks
        match r1 with
        | u :: r2 =>
          if u.ttype = .EOL then
            match r2 with
            | w :: _ =>
              if w.ttype = .EOL || isStatementStart w then do
                let (cb, r3) ← parseCodeblock fuel r2
                .ok (cb.prepend s, r3)
              else
                .ok (CodeBlock.mk [s] s.lineno, r2)
            | [] => .ok (CodeBlock.mk [s] s.lineno, r2)
          else
            .error (parseError u)
        | [] => .error parseErrorNone
      else
        .error (parseError t)

/-- Parse an `elseblock`: `p_else` (`ELSE EOL codeblock`) or `p_empty_else`,
which leaves `t[0]` as `None`. -/
def parseElseblock (fuel : Nat) (toks : List Token) :
    Except ParserException (Option CodeBlock × List Token) :=
  match fuel with
  | 0 => .error parseErrorNone
  | fuel + 1 =>
    match toks with
    | t :: rest =>
      if t.ttype = .ELSE then do
        let r1 ← expectTok .EOL rest
        let (cb, r2) ← parseCodeblock fuel r1
        .ok (some cb, r2)
      else
        .ok (none, toks)
    | [] => .ok (none, toks)

end

/-- Run the grammar engine on a token list (as `parser.parse` with
`codeblock` as the start symbol): the whole input must reduce to one
`codeblock`; a leftover token is a syntax error, and the fuel
`4 * length + 16` exceeds the recursion depth of any parse. -/
def parseToks (toks : List Token) : Except ParserException CodeBlock :=
  match parseCodeblock (4 * toks.length + 16) toks with
  | .ok (cb, []) => .ok cb
  | .ok (_, t :: _) => .error (parseError t)
  | .error e => .error e

/-- Embedding of `build_ast`: normalize the trailing whitespace, tokenize,
parse. -/
def build_ast (code : String) : Except ParserException CodeBlock :=
  match tokenize (normalizeInput code) with
  | .ok toks => parseToks toks
  | .error e => .error e

/-!
## Structural identity up to line numbers

`SameShape` relates two AST values that have the same node kinds, order and
literal values, differing at most in their `line` attributes. -/

/-- Shape equality of expressions: same constructor and value, any lines. -/
inductive ExprShapeEq : Expression → Expression → Prop where
  | atom (s : String) (l₁ l₂ : Nat) :
      ExprShapeEq (.AtomExpression s l₁) (.AtomExpression s l₂)
  | int (n : Nat) (l₁ l₂ : Nat) :
      ExprShapeEq (.IntExpression n l₁) (.IntExpression n l₂)
  | bool (b : Bool) (l₁ l₂ : Nat) :
      ExprShapeEq (.BoolExpression b l₁) (.BoolExpression b l₂)
  | str (s : String) (l₁ l₂ : Nat) :
      ExprShapeEq (.StringExpression s l₁) (.StringExpression s l₂)

mutual
/-- Shape equality of statements: same constructors, operators and values in
the same order, ignoring every `line` attribute. -/
inductive StmtShapeEq : Statement → Statement → Prop where
  | expr {e₁ e₂} : ExprShapeEq e₁ e₂ →
      StmtShapeEq (.ExpressionStatement e₁) (.ExpressionStatement e₂)
  | assign {t₁ t₂ v₁ v₂} (l₁ l₂ : Nat) : ExprShapeEq t₁ t₂ → StmtShapeEq v₁ v₂ →
      StmtShapeEq (.Assignment t₁ v₁ l₁) (.Assignment t₂ v₂ l₂)
  | cmp {a₁ a₂ b₁ b₂} (op : String) (l₁ l₂ : Nat) :
      StmtShapeEq a₁ a₂ → StmtShapeEq b₁ b₂ →
      StmtShapeEq (.Comparison a₁ op b₁ l₁) (.Comparison a₂ op b₂ l₂)
  | andS {a₁ a₂ b₁ b₂} (l₁ l₂ : Nat) : StmtShapeEq a₁ a₂ → StmtShapeEq b₁ b₂ →
      StmtShapeEq (.AndStatement a₁ b₁ l₁) (.AndStatement a₂ b₂ l₂)
  | orS {a₁ a₂ b₁ b₂} (l₁ l₂ : Nat) : StmtShapeEq a₁ a₂ → StmtShapeEq b₁ b₂ →
      StmtShapeEq (.OrStatement a₁ b₁ l₁) (.OrStatement a₂ b₂ l₂)
  | call {n₁ n₂ a₁ a₂} (l₁ l₂ : Nat) : ExprShapeEq n₁ n₂ → ArgsShapeEq a₁ a₂ →
      StmtShapeEq (.FunctionCall n₁ a₁ l₁) (.FunctionCall n₂ a₂ l₂)
  | method {o₁ o₂ n₁ n₂ a₁ a₂} (l₁ l₂ : Nat) :
      StmtShapeEq o₁ o₂ → ExprShapeEq n₁ n₂ → ArgsShapeEq a₁ a₂ →
      StmtShapeEq (.MethodCall o₁ n₁ a₁ l₁) (.MethodCall o₂ n₂ a₂ l₂)
  | ifS {c₁ c₂ t₁ t₂ e₁ e₂} (l₁ l₂ : Nat) :
      StmtShapeEq c₁ c₂ → CodeBlockShapeEq t₁ t₂ → OptBlockShapeEq e₁ e₂ →
      StmtShapeEq (.IfStatement c₁ t₁ e₁ l₁) (.IfStatement c₂ t₂ e₂ l₂)
  | arr {a₁ a₂} (l₁ l₂ : Nat) : ArgsShapeEq a₁ a₂ →
      StmtShapeEq (.ArrayStatement a₁ l₁) (.ArrayStatement a₂ l₂)

/-- Shape equality of statement lists, element by element. -/
inductive StmtsShapeEq : List Statement → List Statement → Prop where
  | nil : StmtsShapeEq [] []
  | cons {s₁ s₂ l₁ l₂} : StmtShapeEq s₁ s₂ → StmtsShapeEq l₁ l₂ →
      StmtsShapeEq (s₁ :: l₁) (s₂ :: l₂)

/-- Shape equality of keyword binding lists, entry by entry. -/
inductive KwShapeEq :
    List (Expression × Statement) → List (Expression × Statement) → Prop where
  | nil : KwShapeEq [] []
  | cons {n₁ n₂ v₁ v₂ l₁ l₂} : ExprShapeEq n₁ n₂ → StmtShapeEq v₁ v₂ →
      KwShapeEq l₁ l₂ → KwShapeEq ((n₁, v₁) :: l₁) ((n₂, v₂) :: l₂)

/-- Shape equality of argument lists. -/
inductive ArgsShapeEq : Arguments → Arguments → Prop where
  | mk {p₁ p₂ k₁ k₂} (l₁ l₂ : Nat) : StmtsShapeEq p₁ p₂ → KwShapeEq k₁ k₂ →
      ArgsShapeEq (.mk p₁ k₁ l₁) (.mk p₂ k₂ l₂)

/-- Shape equality of code blocks. -/
inductive CodeBlockShapeEq : CodeBlock → CodeBlock → Prop where
  | mk {s₁ s₂} (l₁ l₂ : Nat) : StmtsShapeEq s₁ s₂ →
      CodeBlockShapeEq (.mk s₁ l₁) (.mk s₂ l₂)

/-- Shape equality of optional code blocks. -/
inductive OptBlockShapeEq : Option CodeBlock → Option CodeBlock → Prop where
  | none : OptBlockShapeEq none none
  | some {c₁ c₂} : CodeBlockShapeEq c₁ c₂ → OptBlockShapeEq (some c₁) (some c₂)
end

/-!
## Error shapes

Both error kinds are raised as `ParserException`; they are recognizable by
the shape of the message: `t_error` always produces
`"Illegal character '<char>'."` and `p_error` always produces
`"Parser errored out at: <value>."`. -/

/-- The message shape of every lexical error (`t_error`). -/
def LexErrorShape (e : ParserException) : Prop :=
  ∃ s, e.text = illegalCharMsg s

/-- The message shape of every syntax error (`p_error`). -/
def ParseErrorShape (e : ParserException) : Prop :=
  ∃ s, e.text = "Parser errored out at: " ++ s ++ "."

/-- `rest` is what remains of `toks` after consuming a prefix free of `NOT`
tokens. -/
def SubNoNot (toks rest : List Token) : Prop :=
  ∃ pre, toks = pre ++ rest ∧ ∀ t ∈ pre, t.ttype ≠ .NOT

/-- Invariant of a parse function returning a value and the remaining
tokens: every error has the `p_error` shape, and a success consumed only
tokens other than `NOT`. -/
def ParseInv {α : Type} (toks : List Token)
    (r : Except ParserException (α × List Token)) : Prop :=
  (∀ e, r = .error e → ParseErrorShape e) ∧
  (∀ v rest, r = .ok (v, rest) → SubNoNot toks rest)

/-- Same invariant for a parse step returning only the remaining tokens
(`expectTok`). -/
def ParseInvL (toks : List Token)
    (r : Except ParserException (List Token)) : Prop :=
  (∀ e, r = .error e → ParseErrorShape e) ∧
  (∀ rest, r = .ok rest → SubNoNot toks rest)

/-- The token list of a sequence of bare-identifier statements, one per
line: each pair `(name, line)` contributes an `ATOM` token and an `EOL`
token. -/
def atomToks : List (String × Nat) → List Token
  | [] => []
  | (s, l) :: rest => ⟨.ATOM s, l⟩ :: ⟨.EOL, l⟩ :: atomToks rest

/-- The statement a bare identifier parses to. -/
def atomStmt (s : String) (l : Nat) : Statement :=
  .ExpressionStatement (.AtomExpression s l)

/-!
## Test inputs

The single quotes of build-language string literals are spliced in via
`squote` so that the sources stay readable. -/

/-- `f('a', b : 2)` followed by a newline. -/
def inputPosThenKw : String := "f(" ++ squote ++ "a" ++ squote ++ ", b : 2)\n"

/-- `f(b : 2, 'a')` followed by a newline. -/
def inputKwThenPos : String := "f(b : 2, " ++ squote ++ "a" ++ squote ++ ")\n"

/-- `f('k' : 2)` followed by a newline: a string literal as keyword name. -/
def inputKwStringName : String := "f(" ++ squote ++ "k" ++ squote ++ " : 2)\n"

/-- A single-quote string literal whose content spans two physical lines. -/
def inputStringNewline : String := squote ++ "a\nb" ++ squote

/-- A single-quote string literal containing a backslash and an `n`. -/
def inputStringBackslash : String := squote ++ "a\\nb" ++ squote

/-- Whether an expression is an `AtomExpression` (a bare identifier). -/
def isAtomExpression : Expression → Bool
  | .AtomExpression _ _ => true
  | _ => false

/-- The AST of `f(1,\⏎2)` (with a backslash line continuation): the second
argument carries line 2, and so does the `Arguments` node. -/
def astContinuationCall : CodeBlock :=
  .mk [.FunctionCall (.AtomExpression "f" 1)
        (.mk [.ExpressionStatement (.IntExpression 1 1),
              .ExpressionStatement (.IntExpression 2 2)] [] 2) 1] 1

/-- The AST of `f(1, 2)`: everything on line 1. -/
def astPlainCall : CodeBlock :=
  .mk [.FunctionCall (.AtomExpression "f" 1)
        (.mk [.ExpressionStatement (.IntExpression 1 1),
              .ExpressionStatement (.IntExpression 2 1)] [] 1) 1] 1

theorem lexErrorShape_head {e : ParserException} (h : LexErrorShape e) :
    e.text.data.head? = some 'I' := by
  obtain ⟨s, hs⟩ := h
  rw [hs]
  rfl

theorem parseErrorShape_head {e : ParserException} (h : ParseErrorShape e) :
    e.text.data.head? = some 'P' := by
  obtain ⟨s, hs⟩ := h
  rw [hs]
  rfl

/-- The two error shapes are mutually exclusive: a caller can always tell a
lexical error from a syntax error. -/
theorem errorShapes_disjoint (e : ParserException) :
    ¬(LexErrorShape e ∧ ParseErrorShape e) := by
  rintro ⟨hl, hp⟩
  have h1 := lexErrorShape_head hl
  have h2 := parseErrorShape_head hp
  rw [h1] at h2
  simp at h2

/-- Case analysis for a successful `Except.map`. -/
theorem exceptMapOk {α β : Type} {x : Except ParserException α}
    {f : α → β} {b : β} (h : x.map f = .ok b) :
    ∃ a, x = .ok a ∧ f a = b := by
  cases x with
  | ok a => exact ⟨a, rfl, by simpa [Except.map] using h⟩
  | error e => simp [Except.map] at h

/-- Case analysis for a failing `Except.map`. -/
theorem exceptMapErr {α β : Type} {x : Except ParserException α}
    {f : α → β} {e : ParserException} (h : x.map f = .error e) :
    x = .error e := by
  cases x with
  | ok a => simp [Except.map] at h
  | error e' => simpa [Except.map] using h

/-- Case analysis for a successful `Except.bind`. -/
theorem exceptBindOk {α β : Type} {x : Except ParserException α}
    {f : α → Except ParserException β} {b : β} (h : (x >>= f) = .ok b) :
    ∃ a, x = .ok a ∧ f a = .ok b := by
  cases x with
  | ok a => exact ⟨a, rfl, by simpa [Bind.bind, Except.bind] using h⟩
  | error e => simp [Bind.bind, Except.bind] at h

/-- Case analysis for a failing `Except.bind`. -/
theorem exceptBindErr {α β : Type} {x : Except ParserException α}
    {f : α → Except ParserException β} {e : ParserException}
    (h : (x >>= f) = .error e) :
    x = .error e ∨ ∃ a, x = .ok a ∧ f a = .error e := by
  cases x with
  | ok a => exact .inr ⟨a, rfl, by simpa [Bind.bind, Except.bind] using h⟩
  | error e' =>
    refine .inl ?_
    simpa [Bind.bind, Except.bind] using h

/-- The exception built by `t_error` has the lexical shape. -/
theorem lexError_shape (c : Char) (ln : Nat) : LexErrorShape (lexError c ln) :=
  ⟨String.singleton c, rfl⟩

/-- Every error returned by the quote rules has the `t_error` shape. -/
theorem lexQuote_err_shape {ln : Nat} {cs : List Char} {e : ParserException}
    (h : lexQuote ln cs = .err e) : LexErrorShape e := by
  unfold lexQuote at h
  repeat' split at h
  all_goals first
    | (injection h with h2; exact h2 ▸ lexError_shape ..)
    | (cases h)

/-- Every error returned by the punctuation rules has the `t_error`
shape. -/
theorem lexPunct_err_shape {ln : Nat} {c : Char} {cs : List Char}
    {e : ParserException} (h : lexPunct ln c cs = .err e) : LexErrorShape e := by
  unfold lexPunct at h
  repeat' split at h
  all_goals first
    | (injection h with h2; exact h2 ▸ lexError_shape ..)
    | (cases h)

/-- Every error returned by one lexer step has the `t_error` shape. -/
theorem lexStep_err_shape {ln : Nat} {c : Char} {cs : List Char}
    {e : ParserException} (h : lexStep ln c cs = .err e) : LexErrorShape e := by
  unfold lexStep at h
  repeat' split at h
  all_goals first
    | (injection h with h2; exact h2 ▸ lexError_shape ..)
    | (exact lexQuote_err_shape h)
    | (exact lexPunct_err_shape h)
    | (cases h)

/-- Every error produced by the lexer loop carries a `t_error`-shaped
message. -/
theorem lexAux_error_shape :
    ∀ fuel ln cs e, lexAux fuel ln cs = .error e → LexErrorShape e := by
  intro fuel
  induction fuel with
  | zero =>
    intro ln cs e h
    simp only [lexAux, Except.error.injEq] at h
    exact ⟨"", by rw [← h]⟩
  | succ n ih =>
    intro ln cs e h
    cases cs with
    | nil => simp [lexAux] at h
    | cons c cs =>
      rw [lexAux] at h
      cases hs : lexStep ln c cs with
      | skip ln2 rest => rw [hs] at h; exact ih _ _ _ h
      | emit t ln2 rest => rw [hs] at h; exact ih _ _ _ (exceptMapErr h)
      | err e2 =>
        rw [hs] at h
        injection h with h2
        exact h2 ▸ lexStep_err_shape hs

/-- The reserved-word lookup never yields a `STRING` token type. -/
theorem reservedLookup_ne_STRING (nm s : String) :
    reservedLookup nm ≠ .STRING s := by
  unfold reservedLookup
  repeat' split
  all_goals intro h; cases h

/-- A `STRING` token emitted by the quote rules never contains a quote
character. -/
theorem lexQuote_string_noquote {ln : Nat} {cs : List Char} {t : Token}
    {ln' : Nat} {rest : List Char} (h : lexQuote ln cs = .emit t ln' rest) :
    ∀ s, t.ttype = .STRING s → ∀ ch ∈ s.data, ch ≠ '\'' := by
  unfold lexQuote at h
  repeat' split at h
  all_goals try (cases h)
  case _ =>
    -- multi-line string token
    intro s hs
    cases hs
  case _ =>
    -- empty string from an unclosed triple quote
    intro s hs ch hch
    cases hs
    simp at hch
  case _ =>
    -- ordinary single-line string: content is takeWhile (· ≠ quote)
    intro s hs ch hch
    cases hs
    have hch' : ch ∈ List.takeWhile (fun d => decide (d ≠ '\'')) cs := hch
    have hp := List.mem_takeWhile_imp hch'
    exact of_decide_eq_true hp

/-- The punctuation rules never emit a `STRING` token. -/
theorem lexPunct_not_string {ln : Nat} {c : Char} {cs : List Char} {t : Token}
    {ln' : Nat} {rest : List Char} (h : lexPunct ln c cs = .emit t ln' rest) :
    ∀ s, t.ttype ≠ .STRING s := by
  unfold lexPunct at h
  repeat' split at h
  all_goals first
    | (cases h; intro s hs; cases hs)
    | (cases h)

/-- A `STRING` token emitted by one lexer step never contains a quote
character. -/
theorem lexStep_string_noquote {ln : Nat} {c : Char} {cs : List Char}
    {t : Token} {ln' : Nat} {rest : List Char}
    (h : lexStep ln c cs = .emit t ln' rest) :
    ∀ s, t.ttype = .STRING s → ∀ ch ∈ s.data, ch ≠ '\'' := by
  unfold lexStep at h
  repeat' split at h
  all_goals try (cases h)
  case _ =>
    -- identifier / keyword token
    intro s hs
    exact absurd hs (reservedLookup_ne_STRING _ s)
  case _ =>
    -- integer token
    intro s hs; cases hs
  case _ =>
    -- quote rules
    exact lexQuote_string_noquote h
  case _ =>
    -- EOL token
    intro s hs; cases hs
  case _ =>
    -- '==' token
    intro s hs; cases hs
  case _ =>
    -- '=' token
    intro s hs; cases hs
  case _ =>
    -- '!=' token
    intro s hs; cases hs
  case _ =>
    -- punctuation token
    intro s hs
    exact absurd hs (lexPunct_not_string h s)

/-- Every `STRING` token produced by the lexer loop is quote-free. -/
theorem lexAux_string_noquote :
    ∀ fuel ln cs toks, lexAux fuel ln cs = .ok toks →
      ∀ t ∈ toks, ∀ s, t.ttype = .STRING s → ∀ ch ∈ s.data, ch ≠ '\'' := by
  intro fuel
  induction fuel with
  | zero =>
    intro ln cs toks h
    simp [lexAux] at h
  | succ n ih =>
    intro ln cs toks h
    cases cs with
    | nil =>
      simp only [lexAux, Except.ok.injEq] at h
      subst h
      intro t ht
      simp at ht
    | cons c cs =>
      rw [lexAux] at h
      cases hs : lexStep ln c cs with
      | skip ln2 rest =>
        rw [hs] at h
        exact ih _ _ _ h
      | emit t2 ln2 rest =>
        rw [hs] at h
        obtain ⟨ts, hts, hcons⟩ := exceptMapOk h
        intro t ht
        rw [← hcons] at ht
        rcases List.mem_cons.mp ht with h1 | h2
        · subst h1
          exact lexStep_string_noquote hs
        · exact ih _ _ _ hts t h2
      | err e2 =>
        rw [hs] at h
        cases h

/-- The exception built by `p_error` on a token has the syntactic shape. -/
theorem parseError_shape (t : Token) : ParseErrorShape (parseError t) :=
  ⟨tokValue t.ttype, rfl⟩

/-- The exception built by `p_error` at end of input has the syntactic
shape. -/
theorem parseErrorNone_shape : ParseErrorShape parseErrorNone :=
  ⟨"NONE", rfl⟩

theorem subNoNot_refl (toks : List Token) : SubNoNot toks toks :=
  ⟨[], rfl, by simp⟩

theorem subNoNot_trans {a b c : List Token} (h1 : SubNoNot a b)
    (h2 : SubNoNot b c) : SubNoNot a c := by
  obtain ⟨p1, hp1, hn1⟩ := h1
  obtain ⟨p2, hp2, hn2⟩ := h2
  refine ⟨p1 ++ p2, ?_, ?_⟩
  · rw [hp1, hp2, List.append_assoc]
  · intro t ht
    rcases List.mem_append.mp ht with h | h
    · exact hn1 t h
    · exact hn2 t h

theorem subNoNot_cons {t : Token} (ht : t.ttype ≠ .NOT) {toks rest : List Token}
    (h : SubNoNot toks rest) : SubNoNot (t :: toks) rest := by
  obtain ⟨p, hp, hn⟩ := h
  refine ⟨t :: p, by rw [hp]; rfl, ?_⟩
  intro u hu
  rcases List.mem_cons.mp hu with h | h
  · rw [h]; exact ht
  · exact hn u h

theorem parseInv_pure {α : Type} (toks : List Token) (v : α) :
    ParseInv toks (.ok (v, toks)) := by
  constructor
  · intro e h; cases h
  · intro v' rest h
    injection h with h1
    injection h1 with h2 h3
    rw [← h3]
    exact subNoNot_refl toks

theorem parseInv_err {α : Type} (toks : List Token) (t : Token) :
    ParseInv (α := α) toks (.error (parseError t)) := by
  constructor
  · intro e h
    injection h with h1
    exact h1 ▸ parseError_shape t
  · intro v rest h; cases h

theorem parseInv_errNone {α : Type} (toks : List Token) :
    ParseInv (α := α) toks (.error parseErrorNone) := by
  constructor
  · intro e h
    injection h with h1
    exact h1 ▸ parseErrorNone_shape
  · intro v rest h; cases h

/-- A result that satisfies the invariant from a later position also
satisfies it from an earlier position, through a consumed non-`NOT`
token. -/
theorem parseInv_cons {α : Type} {t : Token} (ht : t.ttype ≠ .NOT)
    {toks : List Token} {r : Except ParserException (α × List Token)}
    (h : ParseInv toks r) : ParseInv (t :: toks) r := by
  refine ⟨h.1, ?_⟩
  intro v rest hr
  exact subNoNot_cons ht (h.2 v rest hr)

/-- Bind composition of the invariant. -/
theorem parseInv_bind {α β : Type} {toks : List Token}
    {x : Except ParserException (α × List Token)}
    {f : α × List Token → Except ParserException (β × List Token)}
    (hx : ParseInv toks x)
    (hf : ∀ a rest, x = .ok (a, rest) → ParseInv rest (f (a, rest))) :
    ParseInv toks (x >>= f) := by
  constructor
  · intro e h
    rcases exceptBindErr h with h1 | ⟨⟨a, rest⟩, hok, herr⟩
    · exact hx.1 e h1
    · exact (hf a rest hok).1 e herr
  · intro v rest h
    obtain ⟨⟨a, mid⟩, hok, hf2⟩ := exceptBindOk h
    exact subNoNot_trans (hx.2 a mid hok) ((hf a mid hok).2 v rest hf2)

/-- Bind composition through an `expectTok`-style step. -/
theorem parseInvL_bind {β : Type} {toks : List Token}
    {x : Except ParserException (List Token)}
    {f : List Token → Except ParserException (β × List Token)}
    (hx : ParseInvL toks x)
    (hf : ∀ rest, x = .ok rest → ParseInv rest (f rest)) :
    ParseInv toks (x >>= f) := by
  constructor
  · intro e h
    rcases exceptBindErr h with h1 | ⟨rest, hok, herr⟩
    · exact hx.1 e h1
    · exact (hf rest hok).1 e herr
  · intro v rest h
    obtain ⟨mid, hok, hf2⟩ := exceptBindOk h
    exact subNoNot_trans (hx.2 mid hok) ((hf mid hok).2 v rest hf2)

/-- `expectTok` satisfies the invariant whenever the expected token type is
not `NOT` (the grammar never expects `NOT`). -/
theorem expectTok_inv {tt : TokType} (htt : tt ≠ .NOT) (toks : List Token) :
    ParseInvL toks (expectTok tt toks) := by
  unfold expectTok
  constructor
  · intro e h
    repeat' split at h
    · cases h
      exact parseErrorNone_shape
    · cases h
    · cases h
      exact parseError_shape _
  · intro rest h
    repeat' split at h
    · cases h
    · cases h
      refine subNoNot_cons ?_ (subNoNot_refl rest)
      intro hn
      rename_i teq
      rw [hn] at teq
      exact htt teq.symm
    · cases h

/-- An expression token is never the `NOT` token. -/
theorem expressionOfToken_ne_NOT {t : Token} {e : Expression}
    (h : expressionOfToken t = some e) : t.ttype ≠ .NOT := by
  intro hn
  rw [expressionOfToken, hn] at h
  cases h

/-- A statement-starting token is never the `NOT` token. -/
theorem isStatementStart_ne_NOT {t : Token} (h : isStatementStart t = true) :
    t.ttype ≠ .NOT := by
  intro hn
  rw [isStatementStart] at h
  simp [expressionOfToken, hn] at h

/-- Joint invariant of all grammar-engine functions, by induction on the
fuel: every error they return has the `p_error` shape, and a success
consumes only tokens other than `NOT` (no grammar production mentions
`NOT`). -/
theorem parser_inv : ∀ fuel,
    (∀ mp toks, ParseInv toks (parseStatement fuel mp toks)) ∧
    (∀ toks, ParseInv toks (parsePrimary fuel toks)) ∧
    (∀ mp left toks, ParseInv toks (parseBinOps fuel mp left toks)) ∧
    (∀ toks, ParseInv toks (parseArgs fuel toks)) ∧
    (∀ toks, ParseInv toks (parseArgsPositional fuel toks)) ∧
    (∀ toks, ParseInv toks (parseCodeblock fuel toks)) ∧
    (∀ toks, ParseInv toks (parseElseblock fuel toks)) := by
  intro fuel
  induction fuel with
  | zero =>
    refine ⟨?_, ?_, ?_, ?_, ?_, ?_, ?_⟩ <;> intros <;> exact parseInv_errNone _
  | succ n ih =>
    obtain ⟨ihS, ihP, ihB, ihA, ihAP, ihC, ihE⟩ := ih
    refine ⟨?_, ?_, ?_, ?_, ?_, ?_, ?_⟩
    -- parseStatement
    · intro mp toks
      exact parseInv_bind (ihP toks) (fun a rest _ => ihB mp a rest)
    -- parsePrimary
    · intro toks
      cases toks with
      | nil => exact parseInv_errNone _
      | cons t rest =>
        simp only [parsePrimary]
        cases he : expressionOfToken t with
        | some e =>
          dsimp only
          cases rest with
          | nil => exact parseInv_cons (expressionOfToken_ne_NOT he) (parseInv_pure _ _)
          | cons u rs =>
            dsimp only
            split
            next hA =>
              refine parseInv_cons (expressionOfToken_ne_NOT he)
                (parseInv_cons (by rw [hA]; intro hx; cases hx) ?_)
              exact parseInv_bind (ihS 3 rs) (fun v r _ => parseInv_pure _ _)
            next hA =>
              split
              next hL =>
                refine parseInv_cons (expressionOfToken_ne_NOT he)
                  (parseInv_cons (by rw [hL]; intro hx; cases hx) ?_)
                refine parseInv_bind (ihA rs) ?_
                intro args r1 _
                dsimp only
                refine parseInvL_bind (expectTok_inv (by intro hx; cases hx) r1) ?_
                intro r2 _
                exact parseInv_pure _ _
              next hL =>
                exact parseInv_cons (expressionOfToken_ne_NOT he) (parseInv_pure _ _)
        | none =>
          dsimp only
          split
          next hIF =>
            refine parseInv_cons (by rw [hIF]; intro hx; cases hx) ?_
            refine parseInv_bind (ihS 0 rest) ?_
            intro cond r1 _
            dsimp only
            refine parseInvL_bind (expectTok_inv (by intro hx; cases hx) r1) ?_
            intro r2 _
            refine parseInv_bind (ihC r2) ?_
            intro cb r3 _
            dsimp only
            refine parseInv_bind (ihE r3) ?_
            intro eb r4 _
            dsimp only
            refine parseInvL_bind (expectTok_inv (by intro hx; cases hx) r4) ?_
            intro r5 _
            exact parseInv_pure _ _
          next hIF =>
            split
            next hLP =>
              refine parseInv_cons (by rw [hLP]; intro hx; cases hx) ?_
              refine parseInv_bind (ihS 0 rest) ?_
              intro s r1 _
              dsimp only
              refine parseInvL_bind (expectTok_inv (by intro hx; cases hx) r1) ?_
              intro r2 _
              exact parseInv_pure _ _
            next hLP =>
              split
              next hLB =>
                refine parseInv_cons (by rw [hLB]; intro hx; cases hx) ?_
                cases rest with
                | nil =>
                  dsimp only
                  refine parseInv_bind (ihA []) ?_
                  intro args r1 _
                  dsimp only
                  cases r1 with
                  | nil =>
                    dsimp only
                    refine parseInvL_bind (expectTok_inv (by intro hx; cases hx) []) ?_
                    intro r3 _
                    exact parseInv_pure _ _
                  | cons u rs =>
                    dsimp only
                    split
                    next hu =>
                      refine parseInv_cons (by rw [hu]; intro hx; cases hx) ?_
                      refine parseInvL_bind (expectTok_inv (by intro hx; cases hx) rs) ?_
                      intro r3 _
                      exact parseInv_pure _ _
                    next hu =>
                      refine parseInvL_bind (expectTok_inv (by intro hx; cases hx) (u :: rs)) ?_
                      intro r3 _
                      exact parseInv_pure _ _
                | cons u rs =>
                  dsimp only
                  split
                  next hu =>
                    refine parseInv_cons (by rw [hu]; intro hx; cases hx) ?_
                    refine parseInv_bind (ihA rs) ?_
                    intro args r1 _
                    dsimp only
                    cases r1 with
                    | nil =>
                      dsimp only
                      refine parseInvL_bind (expectTok_inv (by intro hx; cases hx) []) ?_
                      intro r3 _
                      exact parseInv_pure _ _
                    | cons w ws =>
                      dsimp only
                      split
                      next hw =>
                        refine parseInv_cons (by rw [hw]; intro hx; cases hx) ?_
                        refine parseInvL_bind (expectTok_inv (by intro hx; cases hx) ws) ?_
                        intro r3 _
                        exact parseInv_pure _ _
                      next hw =>
                        refine parseInvL_bind (expectTok_inv (by intro hx; cases hx) (w :: ws)) ?_
                        intro r3 _
                        exact parseInv_pure _ _
                  next hu =>
                    refine parseInv_bind (ihA (u :: rs)) ?_
                    intro args r1 _
                    dsimp only
                    cases r1 with
                    | nil =>
                      dsimp only
                      refine parseInvL_bind (expectTok_inv (by intro hx; cases hx) []) ?_
                      intro r3 _
                      exact parseInv_pure _ _
                    | cons w ws =>
                      dsimp only
                      split
                      next hw =>
                        refine parseInv_cons (by rw [hw]; intro hx; cases hx) ?_
                        refine parseInvL_bind (expectTok_inv (by intro hx; cases hx) ws) ?_
                        intro r3 _
                        exact parseInv_pure _ _
                      next hw =>
                        refine parseInvL_bind (expectTok_inv (by intro hx; cases hx) (w :: ws)) ?_
                        intro r3 _
                        exact parseInv_pure _ _
              next hLB => exact parseInv_err _ t
    -- parseBinOps
    · intro mp left toks
      cases toks with
      | nil => exact parseInv_pure _ _
      | cons t rest =>
        simp only [parseBinOps]
        split
        next hC =>
          refine parseInv_cons (by intro hx; rw [hx] at hC; simp at hC) ?_
          refine parseInv_bind (ihS 4 rest) ?_
          intro right r1 _
          dsimp only
          cases r1 with
          | nil => exact ihB mp _ []
          | cons u r2 =>
            dsimp only
            split
            next hU => exact parseInv_err _ u
            next hU => exact ihB mp _ (u :: r2)
        next hC =>
          split
          next hO =>
            refine parseInv_cons (by intro hx; rw [hx] at hO; simp at hO) ?_
            refine parseInv_bind (ihS 5 rest) ?_
            intro right r1 _
            exact ihB mp _ r1
          next hO =>
            split
            next hA =>
              refine parseInv_cons (by intro hx; rw [hx] at hA; simp at hA) ?_
              refine parseInv_bind (ihS 6 rest) ?_
              intro right r1 _
              exact ihB mp _ r1
            next hA =>
              split
              next hD =>
                refine parseInv_cons (by intro hx; rw [hx] at hD; simp at hD) ?_
                cases rest with
                | nil => exact parseInv_errNone _
                | cons u rs =>
                  dsimp only
                  cases hu : expressionOfToken u with
                  | some e2 =>
                    dsimp only
                    refine parseInv_cons (expressionOfToken_ne_NOT hu) ?_
                    refine parseInvL_bind (expectTok_inv (by intro hx; cases hx) rs) ?_
                    intro r1 _
                    refine parseInv_bind (ihA r1) ?_
                    intro args r2 _
                    dsimp only
                    refine parseInvL_bind (expectTok_inv (by intro hx; cases hx) r2) ?_
                    intro r3 _
                    exact ihB mp _ r3
                  | none =>
                    dsimp only
                    exact parseInv_err _ u
              next hD => exact parseInv_pure _ _
    -- parseArgs
    · intro toks
      cases toks with
      | nil =>
        simp only [parseArgs]
        exact ihAP []
      | cons t1 rest0 =>
        cases rest0 with
        | nil =>
          simp only [parseArgs]
          exact ihAP [t1]
        | cons t2 rest =>
          simp only [parseArgs]
          cases he : expressionOfToken t1 with
          | none =>
            dsimp only
            exact ihAP (t1 :: t2 :: rest)
          | some e =>
            dsimp only
            split
            next hc =>
              refine parseInv_cons (expressionOfToken_ne_NOT he)
                (parseInv_cons (by rw [hc]; intro hx; cases hx) ?_)
              refine parseInv_bind (ihS 7 rest) ?_
              intro v r1 _
              dsimp only
              cases r1 with
              | nil => exact parseInv_pure _ _
              | cons u r2 =>
                dsimp only
                split
                next hu =>
                  refine parseInv_cons (by rw [hu]; intro hx; cases hx) ?_
                  cases r2 with
                  | nil =>
                    dsimp only
                    exact parseInv_bind (ihA []) (fun a r _ => parseInv_pure _ _)
                  | cons w ws =>
                    dsimp only
                    split
                    next hw =>
                      exact parseInv_cons (by rw [hw]; intro hx; cases hx)
                        (parseInv_bind (ihA ws) (fun a r _ => parseInv_pure _ _))
                    next hw =>
                      exact parseInv_bind (ihA (w :: ws))
                        (fun a r _ => parseInv_pure _ _)
                next hu =>
                  split
                  next hu2 =>
                    cases r2 with
                    | nil => exact parseInv_errNone _
                    | cons w r4 =>
                      dsimp only
                      split
                      next hw =>
                        refine parseInv_cons (by rw [hu2]; intro hx; cases hx)
                          (parseInv_cons (by rw [hw]; intro hx; cases hx) ?_)
                        exact parseInv_bind (ihA r4)
                          (fun a r _ => parseInv_pure _ _)
                      next hw => exact parseInv_err _ w
                  next hu2 => exact parseInv_pure _ _
            next hc => exact ihAP (t1 :: t2 :: rest)
    -- parseArgsPositional
    · intro toks
      cases toks with
      | nil =>
        simp only [parseArgsPositional]
        exact parseInv_pure _ _
      | cons t rest =>
        simp only [parseArgsPositional]
        split
        next hs =>
          refine parseInv_bind (ihS 0 (t :: rest)) ?_
          intro s r1 _
          dsimp only
          cases r1 with
          | nil => exact parseInv_pure _ _
          | cons u r2 =>
            dsimp only
            split
            next hu =>
              refine parseInv_cons (by rw [hu]; intro hx; cases hx) ?_
              cases r2 with
              | nil =>
                dsimp only
                exact parseInv_bind (ihA []) (fun a r _ => parseInv_pure _ _)
              | cons w ws =>
                dsimp only
                split
                next hw =>
                  exact parseInv_cons (by rw [hw]; intro hx; cases hx)
                    (parseInv_bind (ihA ws) (fun a r _ => parseInv_pure _ _))
                next hw =>
                  exact parseInv_bind (ihA (w :: ws))
                    (fun a r _ => parseInv_pure _ _)
            next hu =>
              split
              next hu2 =>
                cases r2 with
                | nil => exact parseInv_errNone _
                | cons w r4 =>
                  dsimp only
                  split
                  next hw =>
                    refine parseInv_cons (by rw [hu2]; intro hx; cases hx)
                      (parseInv_cons (by rw [hw]; intro hx; cases hx) ?_)
                    exact parseInv_bind (ihA r4) (fun a r _ => parseInv_pure _ _)
                  next hw => exact parseInv_err _ w
              next hu2 => exact parseInv_pure _ _
        next hs => exact parseInv_pure _ _
    -- parseCodeblock
    · intro toks
      cases toks with
      | nil => exact parseInv_errNone _
      | cons t rest =>
        simp only [parseCodeblock]
        split
        next hEOL =>
          exact parseInv_cons (by rw [hEOL]; intro hx; cases hx) (ihC rest)
        next hEOL =>
          split
          next hstart =>
            refine parseInv_bind (ihS 0 (t :: rest)) ?_
            intro s r1 _
            dsimp only
            cases r1 with
            | nil => exact parseInv_errNone _
            | cons u r2 =>
              dsimp only
              split
              next hU =>
                cases r2 with
                | nil =>
                  exact parseInv_cons (by rw [hU]; intro hx; cases hx)
                    (parseInv_pure _ _)
                | cons w r3 =>
                  dsimp only
                  split
                  next hw =>
                    exact parseInv_cons (by rw [hU]; intro hx; cases hx)
                      (parseInv_bind (ihC (w :: r3))
                        (fun cb r4 _ => parseInv_pure _ _))
                  next hw =>
                    exact parseInv_cons (by rw [hU]; intro hx; cases hx)
                      (parseInv_pure _ _)
              next hU => exact parseInv_err _ u
          next hstart => exact parseInv_err _ t
    -- parseElseblock
    · intro toks
      cases toks with
      | nil => exact parseInv_pure _ _
      | cons t rest =>
        simp only [parseElseblock]
        split
        next hELSE =>
          refine parseInv_cons (by rw [hELSE]; intro hx; cases hx) ?_
          refine parseInvL_bind (expectTok_inv (by intro hx; cases hx) rest) ?_
          intro r1 _
          exact parseInv_bind (ihC r1) (fun cb r2 _ => parseInv_pure _ _)
        next hELSE => exact parseInv_pure _ _

/-- Every error returned by the grammar engine has the `p_error` shape. -/
theorem parseToks_error_shape {toks : List Token} {e : ParserException}
    (h : parseToks toks = .error e) : ParseErrorShape e := by
  unfold parseToks at h
  split at h
  · cases h
  · cases h
    exact parseError_shape _
  · rename_i e2 heq
    cases h
    exact ((parser_inv _).2.2.2.2.2.1 toks).1 _ heq

/-- A successful parse consumed the whole token list and therefore saw no
`NOT` token. -/
theorem parseToks_ok_noNot {toks : List Token} {cb : CodeBlock}
    (h : parseToks toks = .ok cb) : ∀ t ∈ toks, t.ttype ≠ .NOT := by
  unfold parseToks at h
  split at h
  · rename_i cb2 heq
    obtain ⟨pre, hpre, hno⟩ :=
      ((parser_inv _).2.2.2.2.2.1 toks).2 cb2 [] heq
    rw [List.append_nil] at hpre
    rw [hpre]
    exact hno
  · cases h
  · cases h

/-- Every failure of `build_ast` is either a lexical error or a syntax
error, recognizable by its message shape. -/
theorem build_ast_error_shape {code : String} {e : ParserException}
    (h : build_ast code = .error e) : LexErrorShape e ∨ ParseErrorShape e := by
  unfold build_ast at h
  split at h
  · exact .inr (parseToks_error_shape h)
  · rename_i e2 heq
    cases h
    exact .inl (lexAux_error_shape _ _ _ _ heq)

theorem getLast?_cons_of_some {α : Type} {l : List α} {x : α}
    (h : l.getLast? = some x) (a : α) : (a :: l).getLast? = some x := by
  cases l with
  | nil => cases h
  | cons b m => rw [List.getLast?_cons_cons]; exact h

/-- Invariant of `codeblock` parsing: the produced block is non-empty and
its `line` is the line of its *last* statement — the block is created by
`p_codeblock_last` from the last statement of the sequence, and
`prepend` does not touch the line. -/
theorem parseCodeblock_lastline :
    ∀ fuel toks cb rest, parseCodeblock fuel toks = .ok (cb, rest) →
      cb.statements.getLast?.map Statement.lineno = some cb.line := by
  intro fuel
  induction fuel with
  | zero =>
    intro toks cb rest h
    cases h
  | succ n ih =>
    intro toks cb rest h
    cases toks with
    | nil => cases h
    | cons t ts =>
      rw [parseCodeblock] at h
      split at h
      · exact ih _ _ _ h
      · split at h
        · obtain ⟨⟨s, r1⟩, hok, hf⟩ := exceptBindOk h
          dsimp only at hf
          split at hf
          · -- r1 = u :: r2
            split at hf
            · -- u is EOL
              split at hf
              · -- r2 = w :: tail
                split at hf
                · -- another statement or blank line follows: prepend case
                  obtain ⟨⟨cb0, r3⟩, hok2, hf2⟩ := exceptBindOk hf
                  dsimp only at hf2
                  injection hf2 with hf3
                  injection hf3 with hc hr
                  have hlast := ih _ _ _ hok2
                  cases hg : cb0.statements.getLast? with
                  | none => rw [hg] at hlast; cases hlast
                  | some x =>
                    rw [hg] at hlast
                    rw [← hc]
                    cases cb0 with
                    | mk stmts l0 =>
                      unfold CodeBlock.prepend
                      simp only [CodeBlock.statements, CodeBlock.line] at hg hlast ⊢
                      rw [getLast?_cons_of_some hg]
                      simpa using hlast
                · -- block ends here: p_codeblock_last
                  injection hf with hf3
                  injection hf3 with hc hr
                  rw [← hc]
                  rfl
              · -- r2 = []: p_codeblock_last
                injection hf with hf3
                injection hf3 with hc hr
                rw [← hc]
                rfl
            · -- token after the statement is not EOL: error
              cases hf
          · -- r1 = []: error
            cases hf
        · cases h

/-- Parsing a non-empty sequence of bare-identifier statements yields the
statements in source order (first line first), even though the
right-recursive `codeblock` rules build the block from the last statement
backward and prepend; the block's line is the line of the last
statement. -/
theorem parseCodeblock_atoms :
    ∀ (ps : List (String × Nat)) (fuel : Nat), ps.length + 3 ≤ fuel →
      ps ≠ [] →
      parseCodeblock fuel (atomToks ps) =
        .ok (.mk (ps.map (fun p => atomStmt p.1 p.2))
              (ps.getLastD ("", 0)).2, []) := by
  intro ps
  induction ps with
  | nil => intro fuel hf hne; exact absurd rfl hne
  | cons x rest ihp =>
    intro fuel hf _
    obtain ⟨m, rfl⟩ : ∃ m, fuel = m + 3 := ⟨fuel - 3, by omega⟩
    cases x with
    | mk s l =>
      cases rest with
      | nil => rfl
      | cons y rest2 =>
        have hrec := ihp (m + 2)
          (by simp only [List.length_cons] at hf ⊢; omega) (by simp)
        rw [show parseCodeblock (m + 3) (atomToks ((s, l) :: y :: rest2)) =
            (do
              let (cb, r3) ← parseCodeblock (m + 2) (atomToks (y :: rest2))
              Except.ok (cb.prepend (atomStmt s l), r3)) from rfl]
        rw [hrec]
        rfl

/-!
## The claims
-/

/-- C1, counterexample.  The claim says a `CodeBlock`'s line is the line of
its *first* statement.  It is not: for `a⏎b⏎` the block is created by
`p_codeblock_last` from the last statement (line 2) and `prepend` does not
update the line, so the block's line is 2 while its first statement is on
line 1. -/
theorem c1_counterexample :
    build_ast "a\nb\n" = .ok (.mk [atomStmt "a" 1, atomStmt "b" 2] 2) ∧
    (CodeBlock.mk [atomStmt "a" 1, atomStmt "b" 2] 2).line = 2 ∧
    ((CodeBlock.mk [atomStmt "a" 1, atomStmt "b" 2] 2).statements.head?.map
      Statement.lineno) = some 1 ∧
    (2 : Nat) ≠ 1 :=
  ⟨rfl, rfl, rfl, by decide⟩

/-- C1, amended.  Node line numbers: an if-statement carries the line of
the `if` token, a call the line of its callee, a method call the line of
its receiver, an assignment the line of its target, a comparison and the
and/or statements the line of their left operand; but a `CodeBlock` carries
the line of its *last* statement (the one `p_codeblock_last` created it
from; `prepend` does not update it), and an `Arguments` node carries the
line of the argument element it was created from — the syntactically last
one (`p_args_single_pos` / `p_args_single_kw`; 0 for an empty list).  The
universal conjunct proves the `CodeBlock` rule for every successful parse;
the concrete conjuncts (with a line continuation separating the leading
token from the rest) exhibit each of the per-node rules. -/
theorem c1_amended :
    (∀ fuel toks cb rest, parseCodeblock fuel toks = .ok (cb, rest) →
      cb.statements.getLast?.map Statement.lineno = some cb.line) ∧
    build_ast "if \\\n true\nx\nendif\n" =
      .ok (.mk [.IfStatement (.ExpressionStatement (.BoolExpression true 2))
            (.mk [atomStmt "x" 3] 3) none 1] 1) ∧
    build_ast "f \\\n (1)\n" =
      .ok (.mk [.FunctionCall (.AtomExpression "f" 1)
            (.mk [.ExpressionStatement (.IntExpression 1 2)] [] 2) 1] 1) ∧
    build_ast "a and \\\n b\n" =
      .ok (.mk [.AndStatement (atomStmt "a" 1) (atomStmt "b" 2) 1] 1) ∧
    build_ast "x = \\\n 3\n" =
      .ok (.mk [.Assignment (.AtomExpression "x" 1)
            (.ExpressionStatement (.IntExpression 3 2)) 1] 1) ∧
    build_ast "a == \\\n b\n" =
      .ok (.mk [.Comparison (atomStmt "a" 1) "==" (atomStmt "b" 2) 1] 1) ∧
    build_ast "a.b(\\\n1)\n" =
      .ok (.mk [.MethodCall (atomStmt "a" 1) (.AtomExpression "b" 1)
            (.mk [.ExpressionStatement (.IntExpression 1 2)] [] 2) 1] 1) ∧
    build_ast "f(1,\\\n2)\n" = .ok astContinuationCall :=
  ⟨parseCodeblock_lastline, rfl, rfl, rfl, rfl, rfl, rfl, rfl⟩

/-- C1, witness for the universal conjunct of the amended claim, at the
parse of `a⏎b⏎`. -/
theorem c1_amended_witness :
    ((CodeBlock.mk [atomStmt "a" 1, atomStmt "b" 2] 2).statements.getLast?.map
      Statement.lineno) =
      some (CodeBlock.mk [atomStmt "a" 1, atomStmt "b" 2] 2).line :=
  c1_amended.1 20 (atomToks [("a", 1), ("b", 2)])
    (.mk [atomStmt "a" 1, atomStmt "b" 2] 2) [] rfl

/-- C2.  Order preservation: parsing any non-empty sequence of
bare-identifier statements yields the statements in source order, first
statement first (despite the right-recursive, prepend-based construction),
and concretely `a⏎b⏎c⏎` parses to the `CodeBlock` `[a, b, c]`. -/
theorem c2_order :
    (∀ (ps : List (String × Nat)) (fuel : Nat), ps.length + 3 ≤ fuel →
      ps ≠ [] →
      parseCodeblock fuel (atomToks ps) =
        .ok (.mk (ps.map (fun p => atomStmt p.1 p.2))
              (ps.getLastD ("", 0)).2, [])) ∧
    build_ast "a\nb\nc\n" =
      .ok (.mk [atomStmt "a" 1, atomStmt "b" 2, atomStmt "c" 3] 3) :=
  ⟨parseCodeblock_atoms, rfl⟩

/-- C2, witness: the order-preservation conjunct applied to the two-line
program `a⏎b⏎`. -/
theorem c2_order_witness :
    parseCodeblock 5 (atomToks [("a", 1), ("b", 2)]) =
      .ok (.mk [atomStmt "a" 1, atomStmt "b" 2] 2, []) :=
  c2_order.1 [("a", 1), ("b", 2)] 5 (by decide) (by decide)

/-- C3.  Failure signaling: every `build_ast` failure is a
`ParserException` of exactly one of two message shapes — the lexical shape
(from `t_error`) or the syntactic shape (from `p_error`) — so the caller
can tell the kinds apart; each carries the message text and a best-effort
line number, with the sentinel line `-1` at end-of-input syntax errors. -/
theorem c3_error_kinds :
    (∀ (code : String) (e : ParserException), build_ast code = .error e →
      (LexErrorShape e ∨ ParseErrorShape e) ∧
      ¬(LexErrorShape e ∧ ParseErrorShape e)) ∧
    build_ast "@" = .error ⟨illegalCharMsg "@", 1⟩ ∧
    build_ast "a b" = .error ⟨"Parser errored out at: b.", 1⟩ ∧
    build_ast "f(1, 2" = .error ⟨"Parser errored out at: NONE.", -1⟩ := by
  refine ⟨?_, rfl, rfl, rfl⟩
  intro code e h
  exact ⟨build_ast_error_shape h, errorShapes_disjoint e⟩

/-- C3, witness: the partition applied to the lexical failure on `@`. -/
theorem c3_error_kinds_witness :
    (LexErrorShape ⟨illegalCharMsg "@", 1⟩ ∨
      ParseErrorShape ⟨illegalCharMsg "@", 1⟩) ∧
    ¬(LexErrorShape ⟨illegalCharMsg "@", 1⟩ ∧
      ParseErrorShape ⟨illegalCharMsg "@", 1⟩) :=
  c3_error_kinds.1 "@" ⟨illegalCharMsg "@", 1⟩ rfl

/-- C4, counterexample.  The claim says an input of only blank lines (or
the empty string) parses to a `CodeBlock` with no statements.  It does not:
the `codeblock` rules (`p_codeblock`, `p_codeblock_emptyline`,
`p_codeblock_last`) have no empty alternative, so the empty input is a
syntax error at end of input. -/
theorem c4_counterexample :
    build_ast "" = .error ⟨"Parser errored out at: NONE.", -1⟩ := rfl

/-- C4, amended.  A code block contains at least one statement: blank-only
input (or the empty string) is a parse error, and an if-statement whose
body has no statements is rejected; blank lines before or between
statements are skipped and contribute no statement. -/
theorem c4_amended :
    (∀ fuel toks cb rest, parseCodeblock fuel toks = .ok (cb, rest) →
      cb.statements ≠ []) ∧
    build_ast "" = .error ⟨"Parser errored out at: NONE.", -1⟩ ∧
    build_ast "if true\nendif\n" =
      .error ⟨"Parser errored out at: endif.", 2⟩ ∧
    build_ast "\n\na\n" = .ok (.mk [atomStmt "a" 3] 3) ∧
    build_ast "a\n\n\nb\n" = .ok (.mk [atomStmt "a" 1, atomStmt "b" 4] 4) := by
  refine ⟨?_, rfl, rfl, rfl, rfl⟩
  intro fuel toks cb rest h hnil
  have hlast := parseCodeblock_lastline fuel toks cb rest h
  rw [hnil] at hlast
  cases hlast

/-- C4, witness for the non-emptiness conjunct, at the parse of `a⏎`. -/
theorem c4_amended_witness :
    (CodeBlock.mk [atomStmt "a" 1] 1).statements ≠ [] :=
  c4_amended.1 20 (atomToks [("a", 1)]) (.mk [atomStmt "a" 1] 1) [] rfl

/-- C5, counterexample.  The claim says no `STRING` token's value contains
a newline.  The `t_STRING` regex class excludes only the quote character,
so a single-quote string may span physical lines: tokenizing `'a⏎b'`
yields a `STRING` token whose value contains a newline. -/
theorem c5_counterexample :
    tokenize inputStringNewline = .ok [⟨.STRING "a\nb", 1⟩] ∧
    '\n' ∈ ("a\nb").data :=
  ⟨rfl, by decide⟩

/-- C5, amended.  A `STRING` token's value is the verbatim text between
the quotes with no escape processing, and never contains a quote
character; embedded newlines are not rejected — the value may contain
newlines, and the lexer does not advance its line counter for them (a
token after such a string still reports the string's opening line). -/
theorem c5_amended :
    (∀ (code : String) (toks : List Token), tokenize code = .ok toks →
      ∀ t ∈ toks, ∀ s, t.ttype = .STRING s → ∀ ch ∈ s.data, ch ≠ '\'') ∧
    tokenize inputStringBackslash = .ok [⟨.STRING "a\\nb", 1⟩] ∧
    tokenize inputStringNewline = .ok [⟨.STRING "a\nb", 1⟩] ∧
    tokenize (inputStringNewline ++ "x") =
      .ok [⟨.STRING "a\nb", 1⟩, ⟨.ATOM "x", 1⟩] := by
  refine ⟨?_, rfl, rfl, rfl⟩
  intro code toks h
  exact lexAux_string_noquote _ _ _ _ h

/-- C5, witness for the quote-freeness conjunct, at the string `'a⏎b'` and
its first character. -/
theorem c5_amended_witness : ('a' : Char) ≠ '\'' :=
  c5_amended.1 inputStringNewline [⟨.STRING "a\nb", 1⟩] rfl
    ⟨.STRING "a\nb", 1⟩ (by decide) "a\nb" rfl 'a' (by decide)

/-- C6, counterexample.  The claim says keyword names must be atoms and
`f(1 : 2)` is not accepted.  The kwarg alternatives of `args` use the
`expression` nonterminal for the name, so `f(1 : 2)` parses successfully,
recording the integer literal `1` — not an atom — as the keyword name. -/
theorem c6_counterexample :
    build_ast "f(1 : 2)\n" =
      .ok (.mk [.FunctionCall (.AtomExpression "f" 1)
            (.mk [] [(.IntExpression 1 1,
              .ExpressionStatement (.IntExpression 2 1))] 1) 1] 1) ∧
    isAtomExpression (.IntExpression 1 1) = false :=
  ⟨rfl, rfl⟩

/-- C6, amended.  A keyword-argument name may be any single expression
token (identifier, integer, boolean or string literal): `f(1 : 2)` and
`f('k' : 2)` are accepted, with the expression recorded as the keyword
name; only a name that is not a bare expression token, such as the
parenthesized statement in `f((1) : 2)`, is rejected. -/
theorem c6_amended :
    build_ast "f(1 : 2)\n" =
      .ok (.mk [.FunctionCall (.AtomExpression "f" 1)
            (.mk [] [(.IntExpression 1 1,
              .ExpressionStatement (.IntExpression 2 1))] 1) 1] 1) ∧
    build_ast inputKwStringName =
      .ok (.mk [.FunctionCall (.AtomExpression "f" 1)
            (.mk [] [(.StringExpression "k" 1,
              .ExpressionStatement (.IntExpression 2 1))] 1) 1] 1) ∧
    build_ast "f((1) : 2)\n" = .error ⟨"Parser errored out at: :.", 1⟩ :=
  ⟨rfl, rfl, rfl⟩

/-- C7, counterexample.  The claim says `f(b : 2, 'a')` fails with a syntax
error.  It does not: `p_kwargs_multiple` explicitly allows further
arguments after a keyword argument, so the call parses successfully, with
the same one positional and one keyword argument as `f('a', b : 2)`. -/
theorem c7_counterexample :
    build_ast inputKwThenPos =
      .ok (.mk [.FunctionCall (.AtomExpression "f" 1)
            (.mk [.ExpressionStatement (.StringExpression "a" 1)]
              [(.AtomExpression "b" 1,
                .ExpressionStatement (.IntExpression 2 1))] 1) 1] 1) :=
  rfl

/-- C7, amended.  `f('a', b : 2)` produces an `Arguments` with one
positional `StringExpression` and one keyword entry named `b` bound to
`IntExpression 2`; and `f(b : 2, 'a')` is *also* accepted, producing the
same positional and keyword content — the grammar imposes no order between
positional and keyword arguments. -/
theorem c7_amended :
    build_ast inputPosThenKw =
      .ok (.mk [.FunctionCall (.AtomExpression "f" 1)
            (.mk [.ExpressionStatement (.StringExpression "a" 1)]
              [(.AtomExpression "b" 1,
                .ExpressionStatement (.IntExpression 2 1))] 1) 1] 1) ∧
    build_ast inputKwThenPos =
      .ok (.mk [.FunctionCall (.AtomExpression "f" 1)
            (.mk [.ExpressionStatement (.StringExpression "a" 1)]
              [(.AtomExpression "b" 1,
                .ExpressionStatement (.IntExpression 2 1))] 1) 1] 1) :=
  ⟨rfl, rfl⟩

/-- C8.  The equality operators are non-associative: `a == b == c` is a
parse error (`p_error` fires on the second `==`), while `a == (b == c)`
succeeds and produces a `Comparison` whose right side is itself the
parenthesized `Comparison`. -/
theorem c8_nonassoc :
    build_ast "a == b == c\n" = .error ⟨"Parser errored out at: ==.", 1⟩ ∧
    build_ast "a == (b == c)\n" =
      .ok (.mk [.Comparison (atomStmt "a" 1) "=="
            (.Comparison (atomStmt "b" 1) "==" (atomStmt "c" 1) 1) 1] 1) :=
  ⟨rfl, rfl⟩

/-- C9.  A backslash line continuation is consumed silently: `f(1,\⏎2)`
parses to a single `FunctionCall` with two positional integer arguments in
one statement, structurally identical (same node kinds, order and values,
differing only in line attributes) to the AST of `f(1, 2)`. -/
theorem c9_continuation :
    build_ast "f(1,\\\n2)\n" = .ok astContinuationCall ∧
    build_ast "f(1, 2)\n" = .ok astPlainCall ∧
    CodeBlockShapeEq astContinuationCall astPlainCall := by
  refine ⟨rfl, rfl, ?_⟩
  unfold astContinuationCall astPlainCall
  repeat constructor

/-- C10.  The word `not` is tokenized as the reserved `NOT` token, but no
grammar production consumes `NOT`: whenever the tokenizer succeeds and the
token list contains a `NOT` token (that is, `not` appears as a bare word
outside string literals and comments), `build_ast` fails with a syntax
error. -/
theorem c10_not_rejected :
    ∀ (code : String) (toks : List Token),
      tokenize (normalizeInput code) = .ok toks →
      (∃ t ∈ toks, t.ttype = .NOT) →
      ∃ e, build_ast code = .error e ∧ ParseErrorShape e := by
  intro code toks htok hex
  obtain ⟨t, ht, hnot⟩ := hex
  unfold build_ast
  rw [htok]
  cases hp : parseToks toks with
  | ok cb => exact absurd hnot (parseToks_ok_noNot hp t ht)
  | error e =>
    refine ⟨e, ?_, parseToks_error_shape hp⟩
    show parseToks toks = Except.error e
    exact hp

/-- C10, witness: the program `not` fails with a syntax error. -/
theorem c10_not_rejected_witness :
    ∃ e, build_ast "not" = .error e ∧ ParseErrorShape e :=
  c10_not_rejected "not" [⟨.NOT, 1⟩, ⟨.EOL, 1⟩] rfl
    ⟨⟨.NOT, 1⟩, by decide, rfl⟩
